import Mathlib

/-!
Verification development for the job-queue ingestion core of the
`jai-gupta-wealth-up` repository (`src/jobQueue.js`).

The JavaScript core is shallowly embedded as executable Lean definitions:
  * `parseCSVLine`   — the quote-aware comma splitter (`parseCSVLine` in the source);
  * `validateLine`   — the per-line validation block of `processFileContent`
                       (field count, name/email presence, email regex, age parsing);
  * `processLine` / `runLines` / `runLoop` — the `for await (const line of rl)` loop
                       of `processFileContent`, including the per-line `try/catch`,
                       the batch writer and the error-category / error-sample logic;
  * `processFileContent` — the whole pipeline including the final partial-batch flush;
  * `processJob` / `drainSteps` / `processQueue` — the job state machine and the
                       dispatch loop of the `JobQueue` class.

External collaborators (MongoDB `save` / `insertMany`, the S3 download) are modelled
as call-indexed oracles: `none` means the call succeeded, `some msg` means the call
rejected with an error whose `.message` is `msg`.  Wall-clock timestamps
(`startedAt`, `completedAt`, `processedAt`) are outside the embedding: none of
the properties verified here mentions them.
-/

/-- The whitespace class of JavaScript (`\s` in a RegExp, and the class stripped by
`String.prototype.trim`): ASCII whitespace, the line terminators, NBSP, the
Unicode space separators and the BOM. -/
def isJsWhitespace (c : Char) : Bool :=
  c = ' ' || c = '\t' || c = '\n' || c = '\r' ||
  c = '\x0b' || c = '\x0c' ||
  c = '\u00a0' || c = '\u1680' ||
  (0x2000 ≤ c.toNat && c.toNat ≤ 0x200a) ||
  c = '\u2028' || c = '\u2029' || c = '\u202f' || c = '\u205f' ||
  c = '\u3000' || c = '\ufeff'

/-- JavaScript `String.prototype.trim`: drop leading and trailing whitespace. -/
def jsTrim (s : String) : String :=
  String.mk (((s.data.dropWhile isJsWhitespace).reverse.dropWhile isJsWhitespace).reverse)

/-- The character loop of `parseCSVLine` (src/jobQueue.js lines 243-254):
`cur` is the `currentField` accumulator, `inQ` the `inQuotes` flag.
A `"` toggles the flag and is dropped; a `,` outside quotes closes the current
field; every other character is appended to the current field.  After the loop
the final `currentField` is pushed unconditionally (line 256). -/
def parseCSVAux : List Char → List Char → Bool → List String
  | [], cur, _ => [String.mk cur]
  | c :: rest, cur, inQ =>
    if c = '"' then parseCSVAux rest cur (!inQ)
    else if c = ',' && !inQ then String.mk cur :: parseCSVAux rest [] inQ
    else parseCSVAux rest (cur ++ [c]) inQ

/-- `parseCSVLine` of src/jobQueue.js (lines 238-259). -/
def parseCSVLine (line : String) : List String :=
  parseCSVAux line.data [] false

/-- A character admitted by `[^\s@]` in the email RegExp: not JS whitespace
and not `@`. -/
def emailCharOk (c : Char) : Bool :=
  !isJsWhitespace c && c ≠ '@'

/-- `true` when the list has a `.` at a position that is neither the first nor
the last (the `[^\s@]+\.[^\s@]+` suffix of the regex needs a dot with at least
one admissible character on each side). -/
def hasInteriorDot (cs : List Char) : Bool :=
  ((cs.drop 1).dropLast).contains '.'

/-- `emailRegex.test` of src/jobQueue.js line 152-153, the regex being
`^[^\s@]+@[^\s@]+\.[^\s@]+$`.  A string matches iff it splits as
`local ++ "@" ++ domain` where `local` and `domain` are nonempty, contain no
whitespace and no further `@` (so the string has exactly one `@`), and `domain`
contains a `.` that is neither its first nor its last character (equivalently
`domain` = `[^\s@]+ "." [^\s@]+`, since `.` itself lies in `[^\s@]`). -/
def emailRegexTest (s : String) : Bool :=
  let cs := s.data
  let localPart := cs.takeWhile (fun c => c ≠ '@')
  match cs.dropWhile (fun c => c ≠ '@') with
  | '@' :: domain =>
    !localPart.isEmpty && localPart.all emailCharOk &&
    !domain.isEmpty && domain.all emailCharOk &&
    hasInteriorDot domain
  | _ => false

/-- Decimal digit value, `none` for a non-digit. -/
def decDigitVal (c : Char) : Option Nat :=
  if '0' ≤ c ∧ c ≤ '9' then some (c.toNat - 48) else none

/-- Hexadecimal digit value, `none` for a non-digit. -/
def hexDigitVal (c : Char) : Option Nat :=
  if '0' ≤ c ∧ c ≤ '9' then some (c.toNat - 48)
  else if 'a' ≤ c ∧ c ≤ 'f' then some (c.toNat - 87)
  else if 'A' ≤ c ∧ c ≤ 'F' then some (c.toNat - 55)
  else none

/-- Read the longest prefix of digits (per `dv`) in base `base`; `none` when the
prefix is empty (JavaScript `parseInt` yields `NaN` then). -/
def parseDigitsNat (base : Nat) (dv : Char → Option Nat) (cs : List Char) : Option Nat :=
  let ds := cs.takeWhile (fun c => (dv c).isSome)
  if ds.isEmpty then none
  else some (ds.foldl (fun acc c => acc * base + (dv c).getD 0) 0)

/-- After the optional sign, `parseInt` with an undefined radix uses base 16 when
the remaining string starts with `0x`/`0X` (the prefix is consumed), and base 10
on the whole remainder otherwise. -/
def parseIntAfterSign (cs : List Char) : Option Nat :=
  match cs with
  | c1 :: c2 :: rest =>
    if c1 = '0' ∧ (c2 = 'x' ∨ c2 = 'X') then parseDigitsNat 16 hexDigitVal rest
    else parseDigitsNat 10 decDigitVal cs
  | _ => parseDigitsNat 10 decDigitVal cs

/-- Sign handling of `parseInt`: a single leading `-` (or `+`) is consumed and
fixes the sign. -/
def parseIntChars (cs : List Char) : Option Int :=
  match cs with
  | c :: rest =>
    if c = '-' then (parseIntAfterSign rest).map (fun n => -(n : Int))
    else if c = '+' then (parseIntAfterSign rest).map (fun n => (n : Int))
    else (parseIntAfterSign cs).map (fun n => (n : Int))
  | [] => (parseIntAfterSign []).map (fun n => (n : Int))

/-- JavaScript `parseInt(s)` (radix argument omitted, as at src/jobQueue.js line
160): skip leading whitespace, read an optional sign, detect a `0x`/`0X` prefix
(base 16) and otherwise parse the longest decimal-digit prefix; `none` models
`NaN`.  Exact integer arithmetic: the ages in scope are far below 2^53, where
the JavaScript number type is exact. -/
def parseIntJS (s : String) : Option Int :=
  parseIntChars (s.data.dropWhile isJsWhitespace)

/-- JavaScript `String.prototype.toLowerCase`, character-wise (the simple
case mapping; coincident with the full mapping on the ASCII data in scope). -/
def jsToLowerCase (s : String) : String :=
  String.mk (s.data.map Char.toLower)

/-- The four named failure classifications of the validation block
(src/jobQueue.js lines 135-169); the fifth counter `other` is handled by the
catch block and is not a classification the validation block can produce. -/
inductive Category
  | missingFields
  | invalidEmail
  | invalidAge
  | malformedLine
deriving DecidableEq, Repr

/-- The record object built at src/jobQueue.js lines 171-178.  `processedAt`
(a wall-clock timestamp) is outside the embedding. -/
structure RecordDoc where
  name : String
  email : String
  age : Option Int
  department : Option String
  uploadedFileId : String
deriving DecidableEq, Repr

/-- Outcome of the validation block for one counted line: either the cleaned
record, or the classification of the first check that failed together with the
message of the `Error` thrown there. -/
inductive ValidationOutcome
  | ok (record : RecordDoc)
  | err (category : Category) (message : String)
deriving DecidableEq, Repr

/-- The validation block of `processFileContent` (src/jobQueue.js lines
133-178), applied to the fields of one counted line.  Each `throw` of the
source is an `.err` carrying the thrown message; the checks run in source
order, so the first failing check wins.  JavaScript destructuring
`const [name, email, age, department] = fields` gives `undefined` past the end
of `fields`; `undefined` and the empty string are both falsy, which the
`Option`/`= ""` cases below mirror. -/
def validateLine (fields : List String) (fileId : String) : ValidationOutcome :=
  if fields.length < 2 then
    .err .malformedLine "Insufficient fields (need at least name and email)"
  else
    let name := fields.getD 0 ""
    let email := fields.getD 1 ""
    if name = "" || jsTrim name = "" then .err .missingFields "Name is required"
    else if email = "" || jsTrim email = "" then .err .missingFields "Email is required"
    else if !emailRegexTest (jsTrim email) then
      .err .invalidEmail ("Invalid email format: " ++ email)
    else
      let ageOutcome : Except (Category × String) (Option Int) :=
        match fields.get? 2 with
        | none => .ok none
        | some a =>
          if a = "" || jsTrim a = "" then .ok none
          else match parseIntJS (jsTrim a) with
            | none => .error (.invalidAge, "Invalid age format: \"" ++ a ++ "\" is not a number")
            | some n =>
              if n < 0 ∨ n > 150 then
                .error (.invalidAge, "Invalid age value: " ++ toString n ++ " (must be 0-150)")
              else .ok (some n)
      match ageOutcome with
      | .error (c, m) => .err c m
      | .ok parsedAge =>
        let department := match fields.get? 3 with
          | none => none
          | some d => if d = "" then none else some (jsTrim d)
        .ok { name := jsTrim name, email := jsToLowerCase (jsTrim email), age := parsedAge,
              department := department, uploadedFileId := fileId }

/-- The `errorCategories` object of src/jobQueue.js lines 100-106. -/
structure ErrorCategories where
  missingFields : Nat
  invalidEmail : Nat
  invalidAge : Nat
  malformedLine : Nat
  other : Nat
deriving DecidableEq, Repr

/-- Increment the counter named by a validation classification
(the `errorCategories.xxx++` preceding each `throw`). -/
def bumpCategory : Category → ErrorCategories → ErrorCategories
  | .missingFields, c => { c with missingFields := c.missingFields + 1 }
  | .invalidEmail, c => { c with invalidEmail := c.invalidEmail + 1 }
  | .invalidAge, c => { c with invalidAge := c.invalidAge + 1 }
  | .malformedLine, c => { c with malformedLine := c.malformedLine + 1 }

/-- One entry of the `errors` sample list (src/jobQueue.js lines 200-204). -/
structure ErrorSample where
  line : Nat
  error : String
  data : String
deriving DecidableEq, Repr

/-- The mutable locals of `processFileContent` (src/jobQueue.js lines 96-111).
`insertCalls` counts the `Record.insertMany` calls issued so far, indexing the
insert oracle; the source needs no such counter because the collaborator keeps
its own state. -/
structure IngestState where
  totalLines : Nat
  successfulInserts : Nat
  failedLines : Nat
  errors : List ErrorSample
  cats : ErrorCategories
  batch : List RecordDoc
  insertCalls : Nat
deriving DecidableEq, Repr

/-- Initial state of one `processFileContent` run. -/
def initState : IngestState :=
  { totalLines := 0, successfulInserts := 0, failedLines := 0, errors := [],
    cats := { missingFields := 0, invalidEmail := 0, invalidAge := 0,
              malformedLine := 0, other := 0 },
    batch := [], insertCalls := 0 }

/-- `const BATCH_SIZE = 100` (src/jobQueue.js line 109). -/
def BATCH_SIZE : Nat := 100

/-- The catch block of the per-line try (src/jobQueue.js lines 189-208), run
after any category counter named by the failing check has already been bumped:
count the failed line; bump `other` exactly when all four named counters are
(still) zero; append an error sample — line number `totalLines + 1` (the
header offset), the thrown message, the first 100 characters of the trimmed
line — but only while fewer than 50 samples are retained. -/
def recordFailure (msg : String) (trimmedLine : String) (st : IngestState) : IngestState :=
  let st1 := { st with failedLines := st.failedLines + 1 }
  let st2 :=
    if st1.cats.missingFields = 0 ∧ st1.cats.invalidEmail = 0 ∧
       st1.cats.invalidAge = 0 ∧ st1.cats.malformedLine = 0 then
      { st1 with cats := { st1.cats with other := st1.cats.other + 1 } }
    else st1
  if st2.errors.length < 50 then
    { st2 with errors :=
        st2.errors ++ [{ line := st2.totalLines + 1, error := msg,
                         data := String.mk (trimmedLine.data.take 100) }] }
  else st2

/-- The body of the line loop for one counted line (src/jobQueue.js lines
130-208): count it, validate it; on success push the record and flush a full
batch through the insert oracle — a rejected mid-stream flush is caught by the
same catch block as a validation failure, and the batch is NOT cleared then;
on a validation failure the bumped counters and the catch block apply. -/
def processLine (insertRes : Nat → Option String) (fileId : String)
    (trimmedLine : String) (st : IngestState) : IngestState :=
  let st := { st with totalLines := st.totalLines + 1 }
  match validateLine (parseCSVLine trimmedLine) fileId with
  | .err c msg => recordFailure msg trimmedLine { st with cats := bumpCategory c st.cats }
  | .ok record =>
    let batch := st.batch ++ [record]
    if batch.length ≥ BATCH_SIZE then
      match insertRes st.insertCalls with
      | none =>
        { st with batch := [],
                  successfulInserts := st.successfulInserts + batch.length,
                  insertCalls := st.insertCalls + 1 }
      | some m =>
        recordFailure m trimmedLine
          { st with batch := batch, insertCalls := st.insertCalls + 1 }
    else { st with batch := batch }

/-- The line loop after the header has been consumed (src/jobQueue.js lines
118-209): trim each line; skip it silently when the trimmed line is empty or
exactly `,,,`; otherwise run the counted-line body. -/
def runLines (insertRes : Nat → Option String) (fileId : String) :
    List String → IngestState → IngestState
  | [], st => st
  | line :: rest, st =>
    let trimmedLine := jsTrim line
    if trimmedLine = "" ∨ trimmedLine = ",,," then runLines insertRes fileId rest st
    else runLines insertRes fileId rest (processLine insertRes fileId trimmedLine st)

/-- The whole line loop including the `isFirstLine` header skip: the first
line of the stream, whatever its content, only flips the flag. -/
def runLoop (insertRes : Nat → Option String) (fileId : String)
    (lines : List String) (st : IngestState) : IngestState :=
  match lines with
  | [] => st
  | _header :: rest => runLines insertRes fileId rest st

/-- The value returned by `processFileContent` (src/jobQueue.js lines
217-235).  `successRate` is `Math.round(successfulInserts / totalLines * 100)`
(0 when `totalLines` is 0); `Math.round` on a nonnegative value is
floor(x + 1/2), computed here exactly on rationals as
`(200 * s + t) / (2 * t)` in natural division. -/
structure RunResult where
  totalLines : Nat
  successfulInserts : Nat
  failedLines : Nat
  successRate : Nat
  errorCategories : ErrorCategories
  errors : List ErrorSample
  summary : String
deriving DecidableEq, Repr

/-- Build the returned summary object from the final loop state: the surfaced
`errors` list is `errors.slice(0, 10)`. -/
def mkResult (st : IngestState) : RunResult :=
  let successRate :=
    if st.totalLines > 0 then
      (200 * st.successfulInserts + st.totalLines) / (2 * st.totalLines)
    else 0
  { totalLines := st.totalLines, successfulInserts := st.successfulInserts,
    failedLines := st.failedLines, successRate := successRate,
    errorCategories := st.cats, errors := st.errors.take 10,
    summary := "Processed " ++ toString st.successfulInserts ++ "/" ++
               toString st.totalLines ++ " records successfully (" ++
               toString successRate ++ "% success rate)" }

/-- `processFileContent` (src/jobQueue.js lines 95-236) over the stream's
lines: run the loop, then flush the remaining partial batch — this final
`Record.insertMany` (line 212) is OUTSIDE the per-line try/catch, so its
rejection propagates out of the function (`Except.error` with the rejection's
message); the source does not clear `batch` after the final flush and neither
does the model. -/
def processFileContent (insertRes : Nat → Option String) (fileId : String)
    (lines : List String) : Except String RunResult :=
  let st := runLoop insertRes fileId lines initState
  if st.batch.isEmpty then .ok (mkResult st)
  else
    match insertRes st.insertCalls with
    | none =>
      .ok (mkResult { st with
            successfulInserts := st.successfulInserts + st.batch.length,
            insertCalls := st.insertCalls + 1 })
    | some m => .error m

/-- An insert oracle on which every `insertMany` call succeeds. -/
def allInsertsOk : Nat → Option String := fun _ => none

/-- Job status enum (`status` of the Job document). -/
inductive JobStatus
  | pending
  | processing
  | completed
  | failed
deriving DecidableEq, Repr

/-- One Job document as the dispatch loop mutates it (src/jobQueue.js; the
schema adds timestamps, which are outside the embedding). -/
structure Job where
  jobId : String
  fileId : String
  fileName : String
  status : JobStatus
  result : Option RunResult
  error : Option String
deriving DecidableEq, Repr

/-- The job created by `enqueueJob` (src/jobQueue.js lines 23-28): status
`pending`, no result, no error. -/
def mkJob (jobId fileId fileName : String) : Job :=
  { jobId := jobId, fileId := fileId, fileName := fileName,
    status := .pending, result := none, error := none }

/-- The external collaborators of the dispatch loop, as oracles.
`download` is `downloadFromS3` followed by readline: it yields the stream's
lines, or the rejection message of a failed S3 fetch.  `saveResult n` is the
outcome of the n-th `job.save()` call (`none` = fulfilled, `some msg` =
rejected with message `msg`); `insertResult` likewise for `Record.insertMany`. -/
structure JobEnv where
  download : String → Except String (List String)
  saveResult : Nat → Option String
  insertResult : Nat → Option String

/-- What one `processJob` call produced: the final in-memory job, the sequence
of job values taken by the in-memory document at each mutation block
(`trace`), the last snapshot successfully persisted by `job.save()`
(`stored`), whether `processJob`'s promise rejected (`threw` — possible only
when the `save` inside the catch block rejects, there being no further
handler), and the next unused save-call index. -/
structure ProcessJobOut where
  job : Job
  trace : List Job
  stored : Option Job
  threw : Bool
  nextSave : Nat
deriving Repr

/-- The catch block of `processJob` (src/jobQueue.js lines 75-82): mark the
in-memory job failed with the caught error's message (nothing clears `result`)
and try to save; a rejected save here escapes `processJob`. -/
def processJobCatch (env : JobEnv) (saveIdx : Nat) (msg : String) (j : Job)
    (trace : List Job) (stored : Option Job) : ProcessJobOut :=
  let jf := { j with status := .failed, error := some msg }
  match env.saveResult saveIdx with
  | none => { job := jf, trace := trace ++ [jf], stored := some jf,
              threw := false, nextSave := saveIdx + 1 }
  | some _ => { job := jf, trace := trace ++ [jf], stored := stored,
                threw := true, nextSave := saveIdx + 1 }

/-- `processJob` (src/jobQueue.js lines 56-83).  The try block marks the job
`processing` and saves, downloads the stream, runs the pipeline, then marks
the job `completed` with its result and saves; any rejection along the way —
including of the completed-save itself — lands in the catch block with that
rejection's message. -/
def processJob (env : JobEnv) (saveIdx : Nat) (job0 : Job) : ProcessJobOut :=
  let j1 := { job0 with status := .processing }
  match env.saveResult saveIdx with
  | some m => processJobCatch env (saveIdx + 1) m j1 [j1] none
  | none =>
    match env.download job0.fileName with
    | .error m => processJobCatch env (saveIdx + 1) m j1 [j1] (some j1)
    | .ok lines =>
      match processFileContent env.insertResult job0.fileId lines with
      | .error m => processJobCatch env (saveIdx + 1) m j1 [j1] (some j1)
      | .ok result =>
        let j2 := { j1 with status := .completed, result := some result }
        match env.saveResult (saveIdx + 1) with
        | none => { job := j2, trace := [j1, j2], stored := some j2,
                    threw := false, nextSave := saveIdx + 2 }
        | some m => processJobCatch env (saveIdx + 2) m j2 [j1, j2] (some j1)

/-- `Job.findOne({status:'pending'}).sort({createdAt:1})`: the store holds the
jobs in creation order, so the claim picks the first pending entry (index and
document). -/
def findFirstPending : List Job → Option (Nat × Job)
  | [] => none
  | j :: rest =>
    if j.status = .pending then some (0, j)
    else (findFirstPending rest).map (fun p => (p.1 + 1, p.2))

/-- The job store plus the `isProcessing` guard flag of the `JobQueue`
singleton; `nextSave` threads the save-call oracle across jobs. -/
structure QueueState where
  jobs : List Job
  isProcessing : Bool
  nextSave : Nat
deriving Repr

/-- Number of pending jobs in the store. -/
def pendingCount (l : List Job) : Nat :=
  (l.filter (fun j => j.status = JobStatus.pending)).length

/-- The `while (true)` drain of `processQueue` (src/jobQueue.js lines 44-53),
with an explicit iteration bound `fuel` in place of non-structural recursion:
each non-aborting iteration persists a non-pending status for the job it
claimed, so `pendingCount + 1` iterations always reach the empty-queue exit
(proved in the dispatch-loop theorems).  Returns the final state and whether
the drain aborted (an unhandled rejection escaping `processJob` destroys the
loop; nothing then resets `isProcessing`).  A successful save overwrites the
claimed job's document in the store; the in-memory mutations of a job whose
saves failed are not visible in the store. -/
def drainSteps (env : JobEnv) : Nat → QueueState → QueueState × Bool
  | 0, qs => (qs, false)
  | fuel + 1, qs =>
    match findFirstPending qs.jobs with
    | none => ({ qs with isProcessing := false }, false)
    | some (i, job) =>
      let out := processJob env qs.nextSave job
      let jobs' := match out.stored with
        | some j' => qs.jobs.set i j'
        | none => qs.jobs
      let qs' := { qs with jobs := jobs', nextSave := out.nextSave }
      if out.threw then (qs', true)
      else drainSteps env fuel qs'

/-- `processQueue` (src/jobQueue.js lines 39-54): return at once when a drain
is active, otherwise set the guard flag and drain. -/
def processQueue (env : JobEnv) (qs : QueueState) : QueueState × Bool :=
  if qs.isProcessing then (qs, false)
  else drainSteps env (pendingCount qs.jobs + 1) { qs with isProcessing := true }

/-- The decimal value of a list of digit characters, by the same left fold as
`parseDigitsNat 10 decDigitVal`. -/
def decDigitsVal (ds : List Char) : Nat :=
  ds.foldl (fun acc c => acc * 10 + (decDigitVal c).getD 0) 0

/-- Insert oracle whose first `insertMany` call rejects (with a duplicate-key
style message) and whose later calls succeed. -/
def insertFailFirst : Nat → Option String :=
  fun n => if n = 0 then some "duplicate key" else none

/-- A stream of a header line and 100 valid data lines: the 100th data line
fills the batch and triggers the mid-stream flush. -/
def linesHundredValid : List String :=
  "header" :: List.replicate 100 "a,a@b.c"

/-- A stream of a header line, one malformed data line (a single field) and
100 valid data lines. -/
def linesMalformedThenHundred : List String :=
  "header" :: "solo" :: List.replicate 100 "a,a@b.c"

/-- The summary returned for the stream `["h", "a,a@b.c", "bad"]` with all
inserts succeeding: two counted lines, one inserted, one malformed. -/
def smallRunResult : RunResult :=
  { totalLines := 2, successfulInserts := 1, failedLines := 1, successRate := 50,
    errorCategories := { missingFields := 0, invalidEmail := 0, invalidAge := 0,
                         malformedLine := 1, other := 0 },
    errors := [{ line := 3, error := "Insufficient fields (need at least name and email)",
                 data := "bad" }],
    summary := "Processed 1/2 records successfully (50% success rate)" }

/-- Save oracle whose second call (index 1) rejects and whose other calls
succeed. -/
def saveFailSecond : Nat → Option String :=
  fun n => if n = 1 then some "disk full" else none

/-- Environment in which streaming and inserting succeed but the save that
should persist the `completed` status (the second save of the job) rejects. -/
def completedSaveFailEnv : JobEnv :=
  { download := fun _ => .ok ["h"], saveResult := saveFailSecond,
    insertResult := allInsertsOk }

/-- Environment in which every external call succeeds. -/
def allSavesOkEnv : JobEnv :=
  { download := fun _ => .ok ["h", "a,a@b.c"], saveResult := fun _ => none,
    insertResult := allInsertsOk }

/-- Environment in which the S3 lookup of `file1` rejects (file not found),
and the save inside the catch block of the job processing it (save call 1)
also rejects. -/
def abortingDrainEnv : JobEnv :=
  { download := fun _ => .error "NoSuchKey", saveResult := saveFailSecond,
    insertResult := allInsertsOk }

/-- Environment in which the S3 lookup of `file1` rejects but every save
succeeds. -/
def lookupFailEnv : JobEnv :=
  { download := fun name => if name = "file1" then .error "NoSuchKey" else .ok ["h"],
    saveResult := fun _ => none, insertResult := allInsertsOk }

/-- A store holding two freshly enqueued jobs, no drain active. -/
def twoPendingJobs : QueueState :=
  { jobs := [mkJob "j1" "f1" "file1", mkJob "j2" "f2" "file2"],
    isProcessing := false, nextSave := 0 }

/-! ## Parser lemmas and claim C8 -/

/-- Spec-side predicate for C8's phrase "no unquoted comma is present": scan
the line with the same quote-toggling state as the parser and report whether
any comma is seen outside a quote span. -/
def hasUnquotedComma : List Char → Bool → Bool
  | [], _ => false
  | c :: rest, inQ =>
    if c = '"' then hasUnquotedComma rest (!inQ)
    else if c = ',' && !inQ then true
    else hasUnquotedComma rest inQ

theorem parseCSVAux_ne_nil (cs : List Char) : ∀ (cur : List Char) (inQ : Bool),
    parseCSVAux cs cur inQ ≠ [] := by
  induction cs with
  | nil => intro cur inQ; simp [parseCSVAux]
  | cons c rest ih =>
    intro cur inQ
    simp only [parseCSVAux]
    split
    · exact ih cur (!inQ)
    · split
      · simp
      · exact ih (cur ++ [c]) inQ

theorem parseCSVAux_no_unquoted_comma (cs : List Char) :
    ∀ (cur : List Char) (inQ : Bool), hasUnquotedComma cs inQ = false →
    parseCSVAux cs cur inQ = [String.mk (cur ++ cs.filter (fun c => c ≠ '"'))] := by
  induction cs with
  | nil => intro cur inQ _; simp [parseCSVAux]
  | cons c rest ih =>
    intro cur inQ h
    simp only [parseCSVAux, hasUnquotedComma] at *
    by_cases hq : c = '"'
    · simp only [hq, if_pos rfl] at *
      rw [ih cur (!inQ) h]
      simp
    · simp only [if_neg hq] at *
      by_cases hcm : (c = ',' && !inQ) = true
      · rw [if_pos hcm] at h; exact absurd h (by simp)
      · rw [if_neg hcm] at *
        rw [ih (cur ++ [c]) inQ h]
        simp [List.filter_cons, hq]

theorem no_comma_no_unquoted (cs : List Char) : ∀ (inQ : Bool),
    (∀ c ∈ cs, c ≠ ',') → hasUnquotedComma cs inQ = false := by
  induction cs with
  | nil => intro inQ _; simp [hasUnquotedComma]
  | cons c rest ih =>
    intro inQ h
    simp only [hasUnquotedComma]
    have hc : c ≠ ',' := h c (by simp)
    split
    · exact ih (!inQ) (fun x hx => h x (by simp [hx]))
    · rw [if_neg (by simp [hc]), ih inQ (fun x hx => h x (by simp [hx]))]
/-- C8, counterexample.  The claim's parenthetical — the result contains "the
whole line" as a field whenever no unquoted comma is present — fails on the
input consisting of the five characters `"a,b"`: no comma of it is unquoted,
yet the parser returns the single field `a,b` (the quote characters are
consumed by the state toggle), so the whole line is not among the returned
fields. -/
theorem C8_parseCSVLine_whole_line_counterexample :
    parseCSVLine "\"a,b\"" = ["a,b"] ∧
    hasUnquotedComma ("\"a,b\"").data false = false ∧
    ¬ ("\"a,b\"" ∈ parseCSVLine "\"a,b\"") := by
  refine ⟨by decide, by decide, by decide⟩

/-- C8, amended.  `parseCSVLine` splits on commas that lie outside
double-quote-delimited spans — a `"` character toggles the quoting state with
no escaping of embedded quotes, an unquoted comma closes the current field, a
quoted comma is ordinary field content — the result always contains at least
one field, and when no unquoted comma is present it is exactly one field equal
to the line with its `"` characters removed (hence the whole line verbatim when
the line contains neither an unquoted comma nor a quote); the input
`"Martinez, Carlos",carlos@company.com` yields the first field
`Martinez, Carlos` containing the comma, rather than two fields. -/
theorem C8_parseCSVLine_quote_aware_split :
    (∀ (cs cur : List Char) (inQ : Bool),
       parseCSVAux ('"' :: cs) cur inQ = parseCSVAux cs cur (!inQ)) ∧
    (∀ (cs cur : List Char),
       parseCSVAux (',' :: cs) cur false = String.mk cur :: parseCSVAux cs [] false) ∧
    (∀ (cs cur : List Char),
       parseCSVAux (',' :: cs) cur true = parseCSVAux cs (cur ++ [',']) true) ∧
    (∀ line : String, parseCSVLine line ≠ []) ∧
    (∀ line : String, hasUnquotedComma line.data false = false →
       parseCSVLine line = [String.mk (line.data.filter (fun c => c ≠ '"'))]) ∧
    (∀ line : String, (∀ c ∈ line.data, c ≠ ',' ∧ c ≠ '"') →
       parseCSVLine line = [line]) ∧
    parseCSVLine "\"Martinez, Carlos\",carlos@company.com" =
      ["Martinez, Carlos", "carlos@company.com"] := by
  refine ⟨fun cs cur inQ => by simp [parseCSVAux],
          fun cs cur => by simp [parseCSVAux],
          fun cs cur => by simp [parseCSVAux],
          fun line => parseCSVAux_ne_nil line.data [] false,
          fun line h => parseCSVAux_no_unquoted_comma line.data [] false h,
          fun line h => ?_, by decide⟩
  have h1 : hasUnquotedComma line.data false = false :=
    no_comma_no_unquoted line.data false (fun c hc => (h c hc).1)
  have h2 := parseCSVAux_no_unquoted_comma line.data [] false h1
  rw [parseCSVLine] at *
  rw [h2, List.filter_eq_self.mpr (fun c hc => by simp [(h c hc).2])]
  cases line
  simp

/-- C8 witness: the amended no-unquoted-comma clause evaluated on the
counterexample line itself. -/
theorem C8_parseCSVLine_quote_aware_split_witness :
    parseCSVLine "\"a,b\"" = [String.mk (("\"a,b\"").data.filter (fun c => c ≠ '"'))] :=
  C8_parseCSVLine_quote_aware_split.2.2.2.2.1 "\"a,b\"" (by decide)
/-! ## Validation lemmas and claims C9 / C10 -/

theorem validateLine_age_case (fid a : String) :
    validateLine ["a", "a@b.c", a] fid =
      (if a = "" ∨ jsTrim a = "" then
        .ok { name := "a", email := "a@b.c", age := none, department := none,
              uploadedFileId := fid }
      else
        match parseIntJS (jsTrim a) with
        | none => .err .invalidAge ("Invalid age format: \"" ++ a ++ "\" is not a number")
        | some n =>
          if n < 0 ∨ n > 150 then
            .err .invalidAge ("Invalid age value: " ++ toString n ++ " (must be 0-150)")
          else
            .ok { name := "a", email := "a@b.c", age := some n, department := none,
                  uploadedFileId := fid }) := by
  simp only [validateLine]
  norm_num
  rw [if_neg (by decide), if_neg (by decide), if_neg (by decide)]
  have h1 : jsTrim "a" = "a" := by decide
  have h2 : jsToLowerCase (jsTrim "a@b.c") = "a@b.c" := by decide
  by_cases h : a = "" ∨ jsTrim a = ""
  · simp [if_pos h, h1, h2]
  · simp only [if_neg h]
    cases hp : parseIntJS (jsTrim a) with
    | none => simp
    | some n =>
      by_cases hr : n < 0 ∨ n > 150
      · simp [if_pos hr]
      · simp [if_neg hr, h1, h2]

theorem jsTrim_empty_of_eq_empty {a : String} (h : a = "") : jsTrim a = "" := by
  rw [h]; rfl

/-- C9.  Age-field handling of the validator on an otherwise valid line: an
absent or blank age is valid with a `null` age; a present non-blank age is
parsed by `parseInt` and classified `invalidAge` when the parse yields `NaN`
or a value outside the inclusive range `[0, 150]`; and the five concrete
behaviours `"150"` valid, `"151"` and `"-1"` invalidAge, `""` valid with null
age, `"abc"` invalidAge. -/
theorem C9_age_field_validation :
    (∀ fid, validateLine ["a", "a@b.c"] fid =
       .ok { name := "a", email := "a@b.c", age := none, department := none,
             uploadedFileId := fid }) ∧
    (∀ fid a, jsTrim a = "" →
       validateLine ["a", "a@b.c", a] fid =
         .ok { name := "a", email := "a@b.c", age := none, department := none,
               uploadedFileId := fid }) ∧
    (∀ fid a, jsTrim a ≠ "" → parseIntJS (jsTrim a) = none →
       validateLine ["a", "a@b.c", a] fid =
         .err .invalidAge ("Invalid age format: \"" ++ a ++ "\" is not a number")) ∧
    (∀ fid a n, parseIntJS (jsTrim a) = some n → (n < 0 ∨ n > 150) →
       validateLine ["a", "a@b.c", a] fid =
         .err .invalidAge ("Invalid age value: " ++ toString n ++ " (must be 0-150)")) ∧
    (∀ fid a n, parseIntJS (jsTrim a) = some n → 0 ≤ n → n ≤ 150 →
       validateLine ["a", "a@b.c", a] fid =
         .ok { name := "a", email := "a@b.c", age := some n, department := none,
               uploadedFileId := fid }) ∧
    (∀ fid, validateLine ["a", "a@b.c", "150"] fid =
       .ok { name := "a", email := "a@b.c", age := some 150, department := none,
             uploadedFileId := fid }) ∧
    (∀ fid, validateLine ["a", "a@b.c", "151"] fid =
       .err .invalidAge "Invalid age value: 151 (must be 0-150)") ∧
    (∀ fid, validateLine ["a", "a@b.c", "-1"] fid =
       .err .invalidAge "Invalid age value: -1 (must be 0-150)") ∧
    (∀ fid, validateLine ["a", "a@b.c", ""] fid =
       .ok { name := "a", email := "a@b.c", age := none, department := none,
             uploadedFileId := fid }) ∧
    (∀ fid, validateLine ["a", "a@b.c", "abc"] fid =
       .err .invalidAge "Invalid age format: \"abc\" is not a number") := by
  have habs : ∀ (a : String), jsTrim a ≠ "" → ¬(a = "" ∨ jsTrim a = "") := by
    rintro a h1 (e | e)
    · exact h1 (jsTrim_empty_of_eq_empty e)
    · exact h1 e
  refine ⟨fun fid => rfl, ?_, ?_, ?_, ?_, fun fid => rfl, fun fid => rfl,
          fun fid => rfl, fun fid => rfl, fun fid => rfl⟩
  · intro fid a h
    rw [validateLine_age_case, if_pos (Or.inr h)]
  · intro fid a h1 h2
    rw [validateLine_age_case, if_neg (habs a h1), h2]
  · intro fid a n hp hr
    have h1 : jsTrim a ≠ "" := by
      intro e
      rw [e] at hp
      rw [(by decide : parseIntJS "" = none)] at hp
      exact Option.noConfusion hp
    rw [validateLine_age_case, if_neg (habs a h1), hp]
    simp [if_pos hr]
  · intro fid a n hp h0 h150
    have h1 : jsTrim a ≠ "" := by
      intro e
      rw [e] at hp
      rw [(by decide : parseIntJS "" = none)] at hp
      exact Option.noConfusion hp
    rw [validateLine_age_case, if_neg (habs a h1), hp]
    simp only [if_neg (by omega : ¬(n < 0 ∨ n > 150))]

/-- C9 witness: the non-numeric clause at age `"abc"` and the range clause at
age `"151"`. -/
theorem C9_age_field_validation_witness :
    validateLine ["a", "a@b.c", "abc"] "f" =
      .err .invalidAge ("Invalid age format: \"" ++ "abc" ++ "\" is not a number") ∧
    validateLine ["a", "a@b.c", "151"] "f" =
      .err .invalidAge ("Invalid age value: " ++ toString (151 : Int) ++ " (must be 0-150)") :=
  ⟨C9_age_field_validation.2.2.1 "f" "abc" (by decide) (by decide),
   C9_age_field_validation.2.2.2.1 "f" "151" 151 (by decide) (by norm_num)⟩
theorem takeWhile_append_stop {α : Type} (p : α → Bool) (l1 l2 : List α)
    (h1 : ∀ a ∈ l1, p a = true) (h2 : ∀ c t, l2 = c :: t → p c = false) :
    (l1 ++ l2).takeWhile p = l1 := by
  induction l1 with
  | nil =>
    cases l2 with
    | nil => rfl
    | cons c t =>
      simp only [List.nil_append]
      exact List.takeWhile_cons_of_neg (by simp [h2 c t rfl])
  | cons a l1' ih =>
    have := h1 a (by simp)
    simp only [List.cons_append, List.takeWhile_cons_of_pos this]
    rw [ih (fun x hx => h1 x (by simp [hx]))]

theorem parseDigitsNat_digits (ds rest : List Char) (hne : ds ≠ [])
    (hds : ∀ c ∈ ds, (decDigitVal c).isSome = true)
    (hrest : ∀ c t, rest = c :: t → decDigitVal c = none) :
    parseDigitsNat 10 decDigitVal (ds ++ rest) = some (decDigitsVal ds) := by
  unfold parseDigitsNat
  rw [takeWhile_append_stop _ ds rest hds (fun c t e => by simp [hrest c t e])]
  simp [hne, decDigitsVal]

theorem parseIntAfterSign_decimal (cs : List Char)
    (hnohex : ∀ c2 t, cs = '0' :: c2 :: t → ¬(c2 = 'x' ∨ c2 = 'X')) :
    parseIntAfterSign cs = parseDigitsNat 10 decDigitVal cs := by
  cases cs with
  | nil => rfl
  | cons c1 rest =>
    cases rest with
    | nil => rfl
    | cons c2 t =>
      simp only [parseIntAfterSign]
      rw [if_neg]
      rintro ⟨e1, e2⟩
      exact hnohex c2 t (by rw [e1]) e2

theorem decDigitVal_isSome_ne {c : Char} (h : (decDigitVal c).isSome = true) :
    c ≠ '-' ∧ c ≠ '+' ∧ c ≠ 'x' ∧ c ≠ 'X' := by
  refine ⟨?_, ?_, ?_, ?_⟩ <;> · rintro rfl; simp [decDigitVal] at h

theorem parseIntChars_cons (c : Char) (rest : List Char) :
    parseIntChars (c :: rest) =
      if c = '-' then (parseIntAfterSign rest).map (fun n => -(n : Int))
      else if c = '+' then (parseIntAfterSign rest).map (fun n => (n : Int))
      else (parseIntAfterSign (c :: rest)).map (fun n => (n : Int)) := rfl

theorem parseIntChars_decimal (sgn ds rest : List Char)
    (hsgn : sgn = [] ∨ sgn = ['+'] ∨ sgn = ['-'])
    (hne : ds ≠ [])
    (hds : ∀ c ∈ ds, (decDigitVal c).isSome = true)
    (hrest : ∀ c t, rest = c :: t → decDigitVal c = none)
    (hnohex : ¬(ds = ['0'] ∧ ∃ t, (rest = 'x' :: t ∨ rest = 'X' :: t))) :
    parseIntChars (sgn ++ (ds ++ rest)) =
      some ((if sgn = ['-'] then -1 else 1) * (decDigitsVal ds : Int)) := by
  have hafter : parseIntAfterSign (ds ++ rest) = some (decDigitsVal ds) := by
    rw [parseIntAfterSign_decimal, parseDigitsNat_digits ds rest hne hds hrest]
    intro c2 t he hx
    cases ds with
    | nil => exact hne rfl
    | cons d ds' =>
      cases ds' with
      | nil =>
        simp only [List.cons_append, List.nil_append, List.cons.injEq] at he
        refine hnohex ⟨by rw [he.1], t, ?_⟩
        rcases hx with rfl | rfl
        · exact Or.inl he.2
        · exact Or.inr he.2
      | cons d2 ds'' =>
        simp only [List.cons_append, List.cons.injEq] at he
        have hd2 := decDigitVal_isSome_ne (hds d2 (by simp))
        rcases hx with rfl | rfl
        · exact hd2.2.2.1 he.2.1
        · exact hd2.2.2.2 he.2.1
  rcases hsgn with rfl | rfl | rfl
  · obtain ⟨d, ds', rfl⟩ : ∃ d ds', ds = d :: ds' := by
      cases ds with
      | nil => exact absurd rfl hne
      | cons d ds' => exact ⟨d, ds', rfl⟩
    have hd := decDigitVal_isSome_ne (hds d (by simp))
    simp only [List.nil_append, List.cons_append]
    rw [parseIntChars_cons, if_neg hd.1, if_neg hd.2.1, ← List.cons_append, hafter]
    simp
  · simp only [List.cons_append, List.nil_append]
    rw [parseIntChars_cons, if_neg (by decide : ¬('+' = '-')), if_pos rfl, hafter]
    simp
  · simp only [List.cons_append, List.nil_append]
    rw [parseIntChars_cons, if_pos rfl, hafter]
    simp
theorem decDigitVal_not_ws {c : Char} (h : (decDigitVal c).isSome = true) :
    isJsWhitespace c = false := by
  have hd : '0' ≤ c ∧ c ≤ '9' := by
    by_contra hc
    simp [decDigitVal, if_neg hc] at h
  have h1 : 48 ≤ c.toNat := hd.1
  have h2 : c.toNat ≤ 57 := hd.2
  by_contra hw
  rw [Bool.not_eq_false] at hw
  simp only [isJsWhitespace, Bool.or_eq_true, Bool.and_eq_true, decide_eq_true_eq] at hw
  casesm* _ ∨ _
  all_goals first
    | omega
    | (subst c; revert h1 h2; decide)

theorem parseIntJS_decimal (a : String) (sgn ds rest : List Char)
    (hdata : (jsTrim a).data = sgn ++ (ds ++ rest))
    (hsgn : sgn = [] ∨ sgn = ['+'] ∨ sgn = ['-'])
    (hne : ds ≠ [])
    (hds : ∀ c ∈ ds, (decDigitVal c).isSome = true)
    (hrest : ∀ c t, rest = c :: t → decDigitVal c = none)
    (hnohex : ¬(ds = ['0'] ∧ ∃ t, (rest = 'x' :: t ∨ rest = 'X' :: t))) :
    parseIntJS (jsTrim a) =
      some ((if sgn = ['-'] then -1 else 1) * (decDigitsVal ds : Int)) := by
  unfold parseIntJS
  rw [hdata]
  have hdrop : (sgn ++ (ds ++ rest)).dropWhile isJsWhitespace = sgn ++ (ds ++ rest) := by
    rcases hsgn with rfl | rfl | rfl
    · obtain ⟨d, ds', rfl⟩ : ∃ d ds', ds = d :: ds' := by
        cases ds with
        | nil => exact absurd rfl hne
        | cons d ds' => exact ⟨d, ds', rfl⟩
      simp only [List.nil_append, List.cons_append]
      exact List.dropWhile_cons_of_neg (by simp [decDigitVal_not_ws (hds d (by simp))])
    · simp only [List.cons_append, List.nil_append]
      exact List.dropWhile_cons_of_neg (by decide)
    · simp only [List.cons_append, List.nil_append]
      exact List.dropWhile_cons_of_neg (by decide)
  rw [hdrop]
  exact parseIntChars_decimal sgn ds rest hsgn hne hds hrest hnohex

/-- C10, counterexample.  The age field `"0x"` begins with the digit `0`
followed by the trailing non-digit `x`, and the value 0 of its decimal-digit
prefix lies inside [0,150]; the claim therefore demands the line be accepted
with age 0.  Instead `parseInt("0x")` selects hexadecimal radix, finds no
hex digit after the `0x` prefix, and yields `NaN`, so the validator classifies
the line `invalidAge`. -/
theorem C10_parseInt_prefix_counterexample :
    (jsTrim "0x").data = ['0'] ++ ['x'] ∧
    (decDigitVal '0').isSome = true ∧ decDigitVal 'x' = none ∧
    decDigitsVal ['0'] = 0 ∧
    parseIntJS (jsTrim "0x") = none ∧
    validateLine ["a", "a@b.c", "0x"] "f" =
      .err .invalidAge "Invalid age format: \"0x\" is not a number" := by
  refine ⟨by decide, by decide, by decide, by decide, by decide, by decide⟩

/-- C10, amended.  On an otherwise valid line, an age field whose trimmed
value is an optional sign, then a nonempty run of decimal digits, then a
trailing non-digit remainder, is parsed by `parseInt` as the signed value of
the digit run — PROVIDED the part after the sign does not begin with the
hexadecimal prefix `0x`/`0X` (i.e. the digit run is `0` and the remainder
starts with `x`/`X`), in which case `parseInt` switches to base 16 instead.
Outside that hex corner the line is accepted with the prefix's value as the
stored age whenever that value lies in [0,150], and is classified
`invalidAge` exactly when it lies outside; in particular `"25abc"` is stored
as 25 and `"12.9"` as 12. -/
theorem C10_parseInt_prefix_age :
    (∀ (fid a : String) (sgn ds rest : List Char),
       (jsTrim a).data = sgn ++ (ds ++ rest) →
       (sgn = [] ∨ sgn = ['+'] ∨ sgn = ['-']) →
       ds ≠ [] →
       (∀ c ∈ ds, (decDigitVal c).isSome = true) →
       (∀ c t, rest = c :: t → decDigitVal c = none) →
       ¬(ds = ['0'] ∧ ∃ t, (rest = 'x' :: t ∨ rest = 'X' :: t)) →
       ((0 ≤ (if sgn = ['-'] then -1 else 1) * (decDigitsVal ds : Int) →
         (if sgn = ['-'] then -1 else 1) * (decDigitsVal ds : Int) ≤ 150 →
         validateLine ["a", "a@b.c", a] fid =
           .ok { name := "a", email := "a@b.c",
                 age := some ((if sgn = ['-'] then -1 else 1) * (decDigitsVal ds : Int)),
                 department := none, uploadedFileId := fid }) ∧
        (((if sgn = ['-'] then -1 else 1) * (decDigitsVal ds : Int) < 0 ∨
          (if sgn = ['-'] then -1 else 1) * (decDigitsVal ds : Int) > 150) →
         validateLine ["a", "a@b.c", a] fid =
           .err .invalidAge ("Invalid age value: " ++
             toString ((if sgn = ['-'] then -1 else 1) * (decDigitsVal ds : Int)) ++
             " (must be 0-150)")))) ∧
    (∀ fid, validateLine ["a", "a@b.c", "25abc"] fid =
       .ok { name := "a", email := "a@b.c", age := some 25, department := none,
             uploadedFileId := fid }) ∧
    (∀ fid, validateLine ["a", "a@b.c", "12.9"] fid =
       .ok { name := "a", email := "a@b.c", age := some 12, department := none,
             uploadedFileId := fid }) := by
  refine ⟨?_, fun fid => rfl, fun fid => rfl⟩
  intro fid a sgn ds rest hdata hsgn hne hds hrest hnohex
  have hv := parseIntJS_decimal a sgn ds rest hdata hsgn hne hds hrest hnohex
  have hne' : jsTrim a ≠ "" := by
    intro e
    rw [e] at hdata
    have : ([] : List Char) = sgn ++ (ds ++ rest) := hdata
    rcases hsgn with rfl | rfl | rfl
    · simp only [List.nil_append] at this
      cases ds with
      | nil => exact hne rfl
      | cons d ds' => exact List.noConfusion this
    · exact List.noConfusion this
    · exact List.noConfusion this
  have hcond : ¬(a = "" ∨ jsTrim a = "") := by
    rintro (e | e)
    · exact hne' (jsTrim_empty_of_eq_empty e)
    · exact hne' e
  constructor
  · intro h0 h150
    rw [validateLine_age_case, if_neg hcond, hv]
    simp only [if_neg (by omega : ¬((if sgn = ['-'] then -1 else 1) * (decDigitsVal ds : Int) < 0 ∨
      (if sgn = ['-'] then -1 else 1) * (decDigitsVal ds : Int) > 150))]
  · intro hr
    rw [validateLine_age_case, if_neg hcond, hv]
    simp only [if_pos hr]

/-- C10 witness: the general clause instantiated on the age field `"25abc"`
(sign empty, digit run `25`, remainder `abc`). -/
theorem C10_parseInt_prefix_age_witness :
    validateLine ["a", "a@b.c", "25abc"] "f" =
      .ok { name := "a", email := "a@b.c",
            age := some ((if ([] : List Char) = ['-'] then -1 else 1) *
                         (decDigitsVal ['2', '5'] : Int)),
            department := none, uploadedFileId := "f" } :=
  (C10_parseInt_prefix_age.1 "f" "25abc" [] ['2', '5'] ['a', 'b', 'c']
    (by decide) (Or.inl rfl) (by decide)
    (by intro c hc; fin_cases hc <;> decide)
    (by intro c t e; simp only [List.cons.injEq] at e; rw [← e.1]; decide)
    (by rintro ⟨h, -⟩; exact absurd h (by decide))).1 (by decide) (by decide)
/-! ## Ingestion-loop lemmas and claims C6, C1, C3, C7, C2 -/

/-- The catch block changes only `failedLines`, `cats.other` and `errors`. -/
theorem recordFailure_stats (m tl : String) (st : IngestState) :
    (recordFailure m tl st).totalLines = st.totalLines ∧
    (recordFailure m tl st).successfulInserts = st.successfulInserts ∧
    (recordFailure m tl st).failedLines = st.failedLines + 1 ∧
    (recordFailure m tl st).batch = st.batch ∧
    (recordFailure m tl st).insertCalls = st.insertCalls ∧
    (recordFailure m tl st).cats.missingFields = st.cats.missingFields ∧
    (recordFailure m tl st).cats.invalidEmail = st.cats.invalidEmail ∧
    (recordFailure m tl st).cats.invalidAge = st.cats.invalidAge ∧
    (recordFailure m tl st).cats.malformedLine = st.cats.malformedLine := by
  unfold recordFailure
  dsimp only
  split <;> split <;> simp

/-- C6.  The first line of the stream is discarded unconditionally — two
streams differing only in their first line are processed identically — and a
line whose trimmed form is empty or exactly `,,,` is skipped silently: the
loop state (so in particular `totalLines`, `failedLines` and every error
category) is exactly the state produced by the remaining lines alone. -/
theorem C6_header_discarded_blank_skipped :
    (∀ (insertRes : Nat → Option String) (fid : String) (a b : String)
       (rest : List String),
       processFileContent insertRes fid (a :: rest) =
         processFileContent insertRes fid (b :: rest)) ∧
    (∀ (insertRes : Nat → Option String) (fid line : String) (rest : List String)
       (st : IngestState),
       jsTrim line = "" ∨ jsTrim line = ",,," →
       runLines insertRes fid (line :: rest) st = runLines insertRes fid rest st) := by
  constructor
  · intro io fid a b rest
    rfl
  · intro io fid line rest st h
    simp only [runLines]
    rw [if_pos h]

/-- C6 witness: an arbitrary header against a data-looking header, and the
skip clause on a `,,,` line and on a whitespace-only line. -/
theorem C6_header_discarded_blank_skipped_witness :
    processFileContent allInsertsOk "f" ("name,email,age,department" :: ["a,a@b.c"]) =
      processFileContent allInsertsOk "f" ("zz,zz,zz" :: ["a,a@b.c"]) ∧
    runLines allInsertsOk "f" (",,," :: ["a,a@b.c"]) initState =
      runLines allInsertsOk "f" ["a,a@b.c"] initState ∧
    runLines allInsertsOk "f" ("   " :: []) initState = runLines allInsertsOk "f" [] initState :=
  ⟨C6_header_discarded_blank_skipped.1 allInsertsOk "f" _ _ _,
   C6_header_discarded_blank_skipped.2 allInsertsOk "f" ",,," _ initState (Or.inr (by decide)),
   C6_header_discarded_blank_skipped.2 allInsertsOk "f" "   " _ initState (Or.inl (by decide))⟩
/-- One counted line preserves `successfulInserts + batch.length + failedLines
= totalLines` provided the insert call it may issue succeeds. -/
theorem processLine_conserves (io : Nat → Option String) (fid tl : String)
    (st : IngestState) (h : io st.insertCalls = none)
    (inv : st.successfulInserts + st.batch.length + st.failedLines = st.totalLines) :
    (processLine io fid tl st).successfulInserts +
      (processLine io fid tl st).batch.length +
      (processLine io fid tl st).failedLines = (processLine io fid tl st).totalLines := by
  unfold processLine
  cases hv : validateLine (parseCSVLine tl) fid with
  | err c msg =>
    dsimp only
    have hr := recordFailure_stats msg tl
      { st with totalLines := st.totalLines + 1, cats := bumpCategory c st.cats }
    rw [hr.1, hr.2.1, hr.2.2.1, hr.2.2.2.1]
    dsimp only
    omega
  | ok record =>
    dsimp only
    split
    · rw [h]
      dsimp only
      simp only [List.length_append, List.length_cons, List.length_nil]
      omega
    · dsimp only
      simp only [List.length_append, List.length_cons, List.length_nil]
      omega

/-- The loop preserves the conservation invariant when every insert succeeds. -/
theorem runLines_conserves (io : Nat → Option String) (fid : String)
    (h : ∀ n, io n = none) :
    ∀ (lines : List String) (st : IngestState),
    st.successfulInserts + st.batch.length + st.failedLines = st.totalLines →
    (runLines io fid lines st).successfulInserts +
      (runLines io fid lines st).batch.length +
      (runLines io fid lines st).failedLines = (runLines io fid lines st).totalLines := by
  intro lines
  induction lines with
  | nil => intro st inv; exact inv
  | cons line rest ih =>
    intro st inv
    simp only [runLines]
    split
    · exact ih st inv
    · exact ih _ (processLine_conserves io fid (jsTrim line) st (h _) inv)

/-- C1.  When every bulk `insertMany` call succeeds, the summary returned by
`processFileContent` satisfies `successfulInserts + failedLines = totalLines`:
every counted line either reaches the batch (and, all flushes succeeding, is
eventually counted by a flush) or is counted failed by the catch block. -/
theorem C1_counts_conserved (io : Nat → Option String) (fid : String)
    (lines : List String) (r : RunResult) (h : ∀ n, io n = none)
    (hr : processFileContent io fid lines = .ok r) :
    r.successfulInserts + r.failedLines = r.totalLines := by
  have hloop : (runLoop io fid lines initState).successfulInserts +
      (runLoop io fid lines initState).batch.length +
      (runLoop io fid lines initState).failedLines =
      (runLoop io fid lines initState).totalLines := by
    cases lines with
    | nil => rfl
    | cons a rest => exact runLines_conserves io fid h rest initState (by rfl)
  unfold processFileContent at hr
  set st := runLoop io fid lines initState with hst
  by_cases hb : st.batch.isEmpty
  · rw [if_pos hb] at hr
    have : r = mkResult st := by exact (Except.ok.injEq _ _).mp hr.symm
    subst this
    simp only [mkResult]
    have : st.batch.length = 0 := by
      rw [List.isEmpty_iff] at hb
      simp [hb]
    omega
  · rw [if_neg hb, h st.insertCalls] at hr
    have : r = mkResult { st with
        successfulInserts := st.successfulInserts + st.batch.length,
        insertCalls := st.insertCalls + 1 } := by
      exact (Except.ok.injEq _ _).mp hr.symm
    subst this
    simp only [mkResult]
    omega

/-- C1 witness: the conservation equation on the concrete stream
`["h", "a,a@b.c", "bad"]` (one inserted record, one malformed line). -/
theorem C1_counts_conserved_witness :
    smallRunResult.successfulInserts + smallRunResult.failedLines =
      smallRunResult.totalLines :=
  C1_counts_conserved allInsertsOk "f" ["h", "a,a@b.c", "bad"] smallRunResult
    (fun _ => rfl) (by rfl)
/-- After a named category has been bumped, the catch block's all-four-zero
test is false. -/
theorem bumpCategory_not_all_zero (c : Category) (cats : ErrorCategories) :
    ¬((bumpCategory c cats).missingFields = 0 ∧ (bumpCategory c cats).invalidEmail = 0 ∧
      (bumpCategory c cats).invalidAge = 0 ∧ (bumpCategory c cats).malformedLine = 0) := by
  cases c <;> simp [bumpCategory]

/-- The catch block bumps `other` exactly when the four named counters are all
zero as it runs. -/
theorem recordFailure_other (m tl : String) (st : IngestState) :
    (recordFailure m tl st).cats.other =
      (if st.cats.missingFields = 0 ∧ st.cats.invalidEmail = 0 ∧
          st.cats.invalidAge = 0 ∧ st.cats.malformedLine = 0
       then st.cats.other + 1 else st.cats.other) := by
  unfold recordFailure
  dsimp only
  split <;> split <;> simp_all

/-- A line failing validation bumps exactly its matched category: the catch
block sees the just-bumped counter as nonzero, so `other` is untouched. -/
theorem processLine_cats_err (io : Nat → Option String) (fid tl : String)
    (st : IngestState) (c : Category) (msg : String)
    (hv : validateLine (parseCSVLine tl) fid = .err c msg) :
    (processLine io fid tl st).cats = bumpCategory c st.cats := by
  simp only [processLine, hv]
  unfold recordFailure
  dsimp only
  rw [if_neg (bumpCategory_not_all_zero c st.cats)]
  split <;> rfl

/-- A counted line preserves `other = 0` and `failedLines` = the sum of the
four named counters, provided the insert call it may issue succeeds. -/
theorem processLine_other_sum (io : Nat → Option String) (fid tl : String)
    (st : IngestState) (h : io st.insertCalls = none)
    (inv : st.cats.other = 0 ∧
      st.failedLines = st.cats.missingFields + st.cats.invalidEmail +
        st.cats.invalidAge + st.cats.malformedLine) :
    (processLine io fid tl st).cats.other = 0 ∧
    (processLine io fid tl st).failedLines =
      (processLine io fid tl st).cats.missingFields +
      (processLine io fid tl st).cats.invalidEmail +
      (processLine io fid tl st).cats.invalidAge +
      (processLine io fid tl st).cats.malformedLine := by
  cases hv : validateLine (parseCSVLine tl) fid with
  | err c msg =>
    have hc := processLine_cats_err io fid tl st c msg hv
    simp only [processLine, hv] at hc ⊢
    have h4 := recordFailure_stats msg tl
      { st with totalLines := st.totalLines + 1, cats := bumpCategory c st.cats }
    rw [hc, h4.2.2.1]
    cases c <;> simp [bumpCategory] <;> omega
  | ok record =>
    simp only [processLine, hv]
    split
    · rw [h]
      exact inv
    · exact inv

/-- The loop preserves the category-sum invariant when every insert succeeds. -/
theorem runLines_other_sum (io : Nat → Option String) (fid : String)
    (h : ∀ n, io n = none) :
    ∀ (lines : List String) (st : IngestState),
    (st.cats.other = 0 ∧
      st.failedLines = st.cats.missingFields + st.cats.invalidEmail +
        st.cats.invalidAge + st.cats.malformedLine) →
    ((runLines io fid lines st).cats.other = 0 ∧
      (runLines io fid lines st).failedLines =
        (runLines io fid lines st).cats.missingFields +
        (runLines io fid lines st).cats.invalidEmail +
        (runLines io fid lines st).cats.invalidAge +
        (runLines io fid lines st).cats.malformedLine) := by
  intro lines
  induction lines with
  | nil => intro st inv; exact inv
  | cons line rest ih =>
    intro st inv
    simp only [runLines]
    split
    · exact ih st inv
    · exact ih _ (processLine_other_sum io fid (jsTrim line) st (h _) inv)
set_option maxRecDepth 40000 in
/-- C3, counterexample.  On a stream with one malformed line followed by 100
valid lines, with the mid-stream flush rejected (and the final flush
succeeding), there are two failed lines: the malformed line increments
`malformedLine`, and the caught insert rejection increments nothing — the
catch block tests whether the four named counters are all zero, and
`malformedLine` is already 1 — so, against the claim, `other` stays 0 and only
1 increment happened across 2 failures (the claim forces the five counters to
sum to `failedLines`). -/
theorem C3_other_counter_counterexample :
    (processFileContent insertFailFirst "f" linesMalformedThenHundred).toOption.map
        (fun r => (r.failedLines,
                   r.errorCategories.missingFields + r.errorCategories.invalidEmail +
                     r.errorCategories.invalidAge + r.errorCategories.malformedLine +
                     r.errorCategories.other,
                   r.errorCategories.malformedLine,
                   r.errorCategories.other)) =
      some (2, 1, 1, 0) := by
  rfl

/-- C3, amended.  A failed line increments at most one category counter — for
a validation failure, exactly the matched category of the first failing check,
and never `other` (so with every insert succeeding, `other` ends 0 and
`failedLines` equals the sum of the four named counters); a failure that no
check matched (a caught mid-stream bulk-insert rejection) increments no named
counter and increments `other` if and only if the four named counters are all
zero at that moment (not: if none was incremented for that failure). -/
theorem C3_category_increments :
    (∀ (io : Nat → Option String) (fid : String) (lines : List String) (r : RunResult),
       (∀ n, io n = none) → processFileContent io fid lines = .ok r →
       r.errorCategories.other = 0 ∧
       r.failedLines = r.errorCategories.missingFields + r.errorCategories.invalidEmail +
         r.errorCategories.invalidAge + r.errorCategories.malformedLine) ∧
    (∀ (io : Nat → Option String) (fid tl : String) (st : IngestState)
       (c : Category) (msg : String),
       validateLine (parseCSVLine tl) fid = .err c msg →
       (processLine io fid tl st).cats = bumpCategory c st.cats) ∧
    (∀ (io : Nat → Option String) (fid tl : String) (st : IngestState)
       (record : RecordDoc) (m : String),
       validateLine (parseCSVLine tl) fid = .ok record →
       (st.batch ++ [record]).length ≥ BATCH_SIZE → io st.insertCalls = some m →
       ((processLine io fid tl st).cats.missingFields = st.cats.missingFields ∧
        (processLine io fid tl st).cats.invalidEmail = st.cats.invalidEmail ∧
        (processLine io fid tl st).cats.invalidAge = st.cats.invalidAge ∧
        (processLine io fid tl st).cats.malformedLine = st.cats.malformedLine) ∧
       (processLine io fid tl st).cats.other =
         (if st.cats.missingFields = 0 ∧ st.cats.invalidEmail = 0 ∧
             st.cats.invalidAge = 0 ∧ st.cats.malformedLine = 0
          then st.cats.other + 1 else st.cats.other)) := by
  refine ⟨?_, fun io fid tl st c msg hv => processLine_cats_err io fid tl st c msg hv, ?_⟩
  · intro io fid lines r h hr
    have hloop : (runLoop io fid lines initState).cats.other = 0 ∧
        (runLoop io fid lines initState).failedLines =
          (runLoop io fid lines initState).cats.missingFields +
          (runLoop io fid lines initState).cats.invalidEmail +
          (runLoop io fid lines initState).cats.invalidAge +
          (runLoop io fid lines initState).cats.malformedLine := by
      cases lines with
      | nil => exact ⟨rfl, rfl⟩
      | cons a rest => exact runLines_other_sum io fid h rest initState ⟨rfl, rfl⟩
    unfold processFileContent at hr
    set st := runLoop io fid lines initState with hst
    by_cases hb : st.batch.isEmpty
    · rw [if_pos hb] at hr
      have : r = mkResult st := (Except.ok.injEq _ _).mp hr.symm
      subst this
      simpa [mkResult] using hloop
    · rw [if_neg hb, h st.insertCalls] at hr
      have : r = mkResult { st with
          successfulInserts := st.successfulInserts + st.batch.length,
          insertCalls := st.insertCalls + 1 } := (Except.ok.injEq _ _).mp hr.symm
      subst this
      simpa [mkResult] using hloop
  · intro io fid tl st record m hv h2 h3
    simp only [processLine, hv]
    rw [if_pos h2, h3]
    refine ⟨⟨?_, ?_, ?_, ?_⟩, ?_⟩
    · rw [(recordFailure_stats m tl _).2.2.2.2.2.1]
    · rw [(recordFailure_stats m tl _).2.2.2.2.2.2.1]
    · rw [(recordFailure_stats m tl _).2.2.2.2.2.2.2.1]
    · rw [(recordFailure_stats m tl _).2.2.2.2.2.2.2.2]
    · rw [recordFailure_other]

/-- C3 witness: the validation-failure clause on a malformed line (category
`malformedLine` bumped, `other` untouched), and the global clause on the
small all-inserts-succeed run. -/
theorem C3_category_increments_witness :
    (processLine allInsertsOk "f" "solo" initState).cats =
      bumpCategory .malformedLine initState.cats ∧
    (smallRunResult.errorCategories.other = 0 ∧
     smallRunResult.failedLines = smallRunResult.errorCategories.missingFields +
       smallRunResult.errorCategories.invalidEmail +
       smallRunResult.errorCategories.invalidAge +
       smallRunResult.errorCategories.malformedLine) :=
  ⟨C3_category_increments.2.1 allInsertsOk "f" "solo" initState .malformedLine
     "Insufficient fields (need at least name and email)" (by rfl),
   C3_category_increments.1 allInsertsOk "f" ["h", "a,a@b.c", "bad"] smallRunResult
     (fun _ => rfl) (by rfl)⟩
/-- What the catch block appends to the sample list: below 50 samples, one
entry carrying `totalLines + 1`, the message and the first 100 characters of
the trimmed line; at 50, nothing. -/
theorem recordFailure_errors (m tl : String) (st : IngestState) :
    (st.errors.length < 50 →
       (recordFailure m tl st).errors =
         st.errors ++ [{ line := st.totalLines + 1, error := m,
                         data := String.mk (tl.data.take 100) }]) ∧
    (¬ st.errors.length < 50 → (recordFailure m tl st).errors = st.errors) := by
  unfold recordFailure
  dsimp only
  constructor <;> intro h
  · split <;> simp [h]
  · split <;> simp [h]

theorem recordFailure_errors_le (m tl : String) (st : IngestState)
    (h : st.errors.length ≤ 50) : (recordFailure m tl st).errors.length ≤ 50 := by
  rcases Nat.lt_or_ge st.errors.length 50 with hl | hl
  · rw [(recordFailure_errors m tl st).1 hl]
    simp only [List.length_append, List.length_cons, List.length_nil]
    omega
  · rw [(recordFailure_errors m tl st).2 (by omega)]
    exact h

theorem recordFailure_data_le (m tl : String) (st : IngestState)
    (h : ∀ e ∈ st.errors, e.data.length ≤ 100) :
    ∀ e ∈ (recordFailure m tl st).errors, e.data.length ≤ 100 := by
  rcases Nat.lt_or_ge st.errors.length 50 with hl | hl
  · rw [(recordFailure_errors m tl st).1 hl]
    intro e he
    rcases List.mem_append.mp he with he | he
    · exact h e he
    · rcases List.mem_singleton.mp he with rfl
      show (String.mk (tl.data.take 100)).length ≤ 100
      have : (String.mk (tl.data.take 100)).length = (tl.data.take 100).length := rfl
      rw [this, List.length_take]
      omega
  · rw [(recordFailure_errors m tl st).2 (by omega)]
    exact h

/-- A counted line keeps at most 50 samples, each with a snippet of at most
100 characters. -/
theorem processLine_errors (io : Nat → Option String) (fid tl : String)
    (st : IngestState)
    (hinv : st.errors.length ≤ 50 ∧ ∀ e ∈ st.errors, e.data.length ≤ 100) :
    (processLine io fid tl st).errors.length ≤ 50 ∧
    ∀ e ∈ (processLine io fid tl st).errors, e.data.length ≤ 100 := by
  unfold processLine
  cases hv : validateLine (parseCSVLine tl) fid with
  | err c msg =>
    dsimp only
    exact ⟨recordFailure_errors_le _ _ _ hinv.1, recordFailure_data_le _ _ _ hinv.2⟩
  | ok record =>
    dsimp only
    split
    · cases io st.insertCalls with
      | none => exact hinv
      | some m =>
        exact ⟨recordFailure_errors_le _ _ _ hinv.1, recordFailure_data_le _ _ _ hinv.2⟩
    · exact hinv

theorem runLines_errors (io : Nat → Option String) (fid : String) :
    ∀ (lines : List String) (st : IngestState),
    (st.errors.length ≤ 50 ∧ ∀ e ∈ st.errors, e.data.length ≤ 100) →
    ((runLines io fid lines st).errors.length ≤ 50 ∧
     ∀ e ∈ (runLines io fid lines st).errors, e.data.length ≤ 100) := by
  intro lines
  induction lines with
  | nil => intro st hinv; exact hinv
  | cons line rest ih =>
    intro st hinv
    simp only [runLines]
    split
    · exact ih st hinv
    · exact ih _ (processLine_errors io fid (jsTrim line) st hinv)

/-- C7.  The returned `errors` list is the first 10 of the samples retained by
the loop, of which there are at most 50; every surfaced sample's snippet is at
most 100 characters; and each sample appended by the catch block carries line
number `totalLines + 1` at the moment of failure, the failure's message, and
the first 100 characters of the trimmed line (no sample is appended once 50
are retained). -/
theorem C7_error_samples :
    (∀ (io : Nat → Option String) (fid : String) (lines : List String) (r : RunResult),
       processFileContent io fid lines = .ok r →
       r.errors.length ≤ 10 ∧
       r.errors = (runLoop io fid lines initState).errors.take 10 ∧
       (runLoop io fid lines initState).errors.length ≤ 50 ∧
       ∀ e ∈ r.errors, e.data.length ≤ 100) ∧
    (∀ (m tl : String) (st : IngestState), st.errors.length < 50 →
       (recordFailure m tl st).errors =
         st.errors ++ [{ line := st.totalLines + 1, error := m,
                         data := String.mk (tl.data.take 100) }]) ∧
    (∀ (m tl : String) (st : IngestState), 50 ≤ st.errors.length →
       (recordFailure m tl st).errors = st.errors) := by
  refine ⟨?_, fun m tl st h => (recordFailure_errors m tl st).1 h,
          fun m tl st h => (recordFailure_errors m tl st).2 (by omega)⟩
  intro io fid lines r hr
  have hloop : (runLoop io fid lines initState).errors.length ≤ 50 ∧
      ∀ e ∈ (runLoop io fid lines initState).errors, e.data.length ≤ 100 := by
    cases lines with
    | nil => exact ⟨by simp [runLoop, initState], by simp [runLoop, initState]⟩
    | cons a rest =>
      exact runLines_errors io fid rest initState
        ⟨by simp [initState], by simp [initState]⟩
  have herr : r.errors = (runLoop io fid lines initState).errors.take 10 := by
    unfold processFileContent at hr
    set st := runLoop io fid lines initState with hst
    by_cases hb : st.batch.isEmpty
    · rw [if_pos hb] at hr
      have : r = mkResult st := (Except.ok.injEq _ _).mp hr.symm
      subst this
      rfl
    · rw [if_neg hb] at hr
      cases hio : io st.insertCalls with
      | none =>
        rw [hio] at hr
        have : r = mkResult { st with
            successfulInserts := st.successfulInserts + st.batch.length,
            insertCalls := st.insertCalls + 1 } := (Except.ok.injEq _ _).mp hr.symm
        subst this
        rfl
      | some m => rw [hio] at hr; exact Except.noConfusion hr
  refine ⟨?_, herr, hloop.1, ?_⟩
  · rw [herr, List.length_take]
    omega
  · intro e he
    rw [herr] at he
    exact hloop.2 e (List.take_subset 10 _ he)

/-- C7 witness: the run-level clause on the small concrete run. -/
theorem C7_error_samples_witness :
    smallRunResult.errors.length ≤ 10 ∧
    (∀ e ∈ smallRunResult.errors, e.data.length ≤ 100) :=
  ⟨(C7_error_samples.1 allInsertsOk "f" ["h", "a,a@b.c", "bad"] smallRunResult (by rfl)).1,
   (C7_error_samples.1 allInsertsOk "f" ["h", "a,a@b.c", "bad"] smallRunResult (by rfl)).2.2.2⟩
set_option maxRecDepth 40000 in
/-- C2, counterexample.  The claim says a bulk-insert failure at a mid-stream
flush of a full batch propagates out of `processFileContent`.  It does not:
the mid-stream `insertMany` sits inside the per-line try, so on a stream of
100 valid lines whose first insert call (the mid-stream flush) rejects,
`processFileContent` RESOLVES with a summary — the rejection was caught like a
validation failure (failedLines 1, category `other`), the batch was not
cleared, and the final flush re-inserted all 100 records on the second call. -/
theorem C2_midstream_insert_failure_counterexample :
    (insertFailFirst 0).isSome = true ∧
    (processFileContent insertFailFirst "f" linesHundredValid).toOption.map
        (fun r => (r.totalLines, r.successfulInserts, r.failedLines,
                   r.errorCategories.other)) = some (100, 100, 1, 1) := by
  exact ⟨by decide, by rfl⟩

/-- C2, amended.  `processFileContent` never raises on a per-record validation
failure, and the only stream-level failure it raises is a bulk-insert
rejection at the FINAL partial-batch flush: it rejects with message `e` iff
the loop left a nonempty batch whose flush rejects with `e` (a rejected
mid-stream flush of a full batch is caught by the per-line handler and does
not propagate); when a final-flush rejection does propagate, `processJob`
records it and terminates the job as `failed` with that message. -/
theorem C2_stream_failure_only_from_final_flush :
    (∀ (io : Nat → Option String) (fid : String) (lines : List String) (e : String),
       processFileContent io fid lines = .error e ↔
         ¬ (runLoop io fid lines initState).batch.isEmpty ∧
           io (runLoop io fid lines initState).insertCalls = some e) ∧
    (∀ (env : JobEnv) (saveIdx : Nat) (job0 : Job) (ls : List String) (e : String),
       env.saveResult saveIdx = none →
       env.download job0.fileName = .ok ls →
       processFileContent env.insertResult job0.fileId ls = .error e →
       (processJob env saveIdx job0).job.status = .failed ∧
       (processJob env saveIdx job0).job.error = some e) := by
  constructor
  · intro io fid lines e
    unfold processFileContent
    set st := runLoop io fid lines initState with hst
    constructor
    · intro h
      by_cases hb : st.batch.isEmpty
      · rw [if_pos hb] at h
        exact Except.noConfusion h
      · rw [if_neg hb] at h
        cases hio : io st.insertCalls with
        | none => rw [hio] at h; exact Except.noConfusion h
        | some m =>
          rw [hio] at h
          have hme : m = e := (Except.error.injEq _ _).mp h
          subst hme
          exact ⟨hb, rfl⟩
    · rintro ⟨hb, hio⟩
      rw [if_neg hb, hio]
  · intro env saveIdx job0 ls e h1 hdl hpf
    simp only [processJob, h1, hdl, hpf]
    unfold processJobCatch
    cases hs2 : env.saveResult (saveIdx + 1) <;> simp

/-- C2 witness: a final partial-batch flush whose insert rejects makes the
pipeline reject with that message (one valid line, batch size not reached
mid-stream). -/
theorem C2_stream_failure_only_from_final_flush_witness :
    processFileContent (fun _ => some "connection reset") "f" ["h", "a,a@b.c"] =
      .error "connection reset" :=
  (C2_stream_failure_only_from_final_flush.1 (fun _ => some "connection reset") "f"
    ["h", "a,a@b.c"] "connection reset").mpr ⟨by decide, by rfl⟩
/-! ## Job state machine and dispatch loop: claims C5, C4 -/

/-- C5, counterexample.  When the save persisting `completed` rejects,
execution falls into the catch block: the in-memory job transitions
`completed → failed` — a transition outside the claimed state machine — and
ends with status `failed` while BOTH `result` (set on the completed attempt,
never cleared) and `error` are populated. -/
theorem C5_completed_save_failure_counterexample :
    ((mkJob "j1" "f1" "file1") ::
        (processJob completedSaveFailEnv 0 (mkJob "j1" "f1" "file1")).trace).map
        (fun j => j.status) =
      [.pending, .processing, .completed, .failed] ∧
    (processJob completedSaveFailEnv 0 (mkJob "j1" "f1" "file1")).job.status = .failed ∧
    (processJob completedSaveFailEnv 0 (mkJob "j1" "f1" "file1")).job.result.isSome = true ∧
    (processJob completedSaveFailEnv 0 (mkJob "j1" "f1" "file1")).job.error.isSome = true := by
  refine ⟨by decide, by decide, by decide, by decide⟩

/-- C5, amended.  Provided every persistence save succeeds, a job taken from
`pending` (with neither result nor error set) moves through exactly
`pending → processing → completed` or `pending → processing → failed`, never
regressing, and once status leaves `processing` exactly one of
{result, error} is populated: `result` exactly when `completed`, `error`
exactly when `failed`; `processJob` itself never rejects then.  (When the
completed-save rejects, the job additionally transitions `completed → failed`
and keeps the stale `result` besides the `error` — see the counterexample.) -/
theorem C5_job_state_machine (env : JobEnv) (saveIdx : Nat) (job0 : Job)
    (hsave : ∀ n, env.saveResult n = none)
    (hp : job0.status = .pending) (hr0 : job0.result = none) (he0 : job0.error = none) :
    ((job0 :: (processJob env saveIdx job0).trace).map (fun j => j.status) =
       [.pending, .processing, .completed] ∨
     (job0 :: (processJob env saveIdx job0).trace).map (fun j => j.status) =
       [.pending, .processing, .failed]) ∧
    ((processJob env saveIdx job0).job.status = .completed ∨
     (processJob env saveIdx job0).job.status = .failed) ∧
    ((processJob env saveIdx job0).job.status = .completed →
       (processJob env saveIdx job0).job.result.isSome = true ∧
       (processJob env saveIdx job0).job.error = none) ∧
    ((processJob env saveIdx job0).job.status = .failed →
       (processJob env saveIdx job0).job.error.isSome = true ∧
       (processJob env saveIdx job0).job.result = none) ∧
    (processJob env saveIdx job0).threw = false := by
  simp only [processJob, hsave]
  cases hdl : env.download job0.fileName with
  | error m => simp [hdl, processJobCatch, hsave, hp, hr0, he0]
  | ok ls =>
    cases hpf : processFileContent env.insertResult job0.fileId ls with
    | error m => simp [hdl, hpf, processJobCatch, hsave, hp, hr0, he0]
    | ok res => simp [hdl, hpf, hsave, hp, hr0, he0]

/-- C5 witness: the state-machine clause on a concrete successful job. -/
theorem C5_job_state_machine_witness :
    ((mkJob "j" "f" "file") :: (processJob allSavesOkEnv 0 (mkJob "j" "f" "file")).trace).map
        (fun j => j.status) = [.pending, .processing, .completed] ∨
    ((mkJob "j" "f" "file") :: (processJob allSavesOkEnv 0 (mkJob "j" "f" "file")).trace).map
        (fun j => j.status) = [.pending, .processing, .failed] :=
  (C5_job_state_machine allSavesOkEnv 0 (mkJob "j" "f" "file")
    (fun _ => rfl) rfl rfl rfl).1
theorem findFirstPending_spec :
    ∀ (l : List Job) (i : Nat) (j : Job), findFirstPending l = some (i, j) →
      l.get? i = some j ∧ j.status = .pending := by
  intro l
  induction l with
  | nil => intro i j h; exact Option.noConfusion h
  | cons k rest ih =>
    intro i j h
    simp only [findFirstPending] at h
    split at h
    · have h' : ((0 : Nat), k) = (i, j) := (Option.some.injEq _ _).mp h
      rcases h' with ⟨⟩
      exact ⟨rfl, by assumption⟩
    · cases hf : findFirstPending rest with
      | none => rw [hf] at h; exact Option.noConfusion h
      | some p =>
        rw [hf] at h
        have h2 : some (p.1 + 1, p.2) = some (i, j) := h
        have h' : (p.1 + 1, p.2) = (i, j) := (Option.some.injEq _ _).mp h2
        rcases h' with ⟨⟩
        have := ih p.1 p.2 (by rw [hf])
        exact ⟨this.1, this.2⟩

theorem findFirstPending_none :
    ∀ (l : List Job), findFirstPending l = none → pendingCount l = 0 := by
  intro l
  induction l with
  | nil => intro _; rfl
  | cons k rest ih =>
    intro h
    simp only [findFirstPending] at h
    split at h
    · exact Option.noConfusion h
    · cases hf : findFirstPending rest with
      | none =>
        have := ih hf
        simp only [pendingCount, List.filter_cons] at *
        split
        · next hk => simp_all
        · exact this
      | some p => rw [hf] at h; exact Option.noConfusion h

theorem pendingCount_set :
    ∀ (l : List Job) (i : Nat) (j j' : Job), l.get? i = some j →
      j.status = .pending → j'.status ≠ .pending →
      pendingCount (l.set i j') + 1 = pendingCount l := by
  intro l
  induction l with
  | nil => intro i j j' h; exact Option.noConfusion h
  | cons k rest ih =>
    intro i j j' h hj hj'
    cases i with
    | zero =>
      have hk : k = j := (Option.some.injEq _ _).mp h
      subst hk
      simp only [List.set, pendingCount, List.filter_cons]
      rw [if_neg (by simp [hj']), if_pos (by simp [hj])]
      simp [pendingCount]
    | succ i' =>
      simp only [List.set, pendingCount, List.filter_cons]
      have hrec := ih i' j j' h hj hj'
      split
      · simp only [List.length_cons]
        simp only [pendingCount] at hrec
        omega
      · exact hrec

theorem get?_some_lt {α : Type} : ∀ (l : List α) (i : Nat) (a : α),
    l.get? i = some a → i < l.length := by
  intro l
  induction l with
  | nil => intro i a h; exact Option.noConfusion h
  | cons k rest ih =>
    intro i a h
    cases i with
    | zero => simp
    | succ i' =>
      have := ih i' a h
      simp only [List.length_cons]
      omega

/-- With every save succeeding, `processJob` never rejects and always
persists a terminal snapshot; on a failed stream lookup the snapshot is
`failed` carrying the lookup rejection's message. -/
theorem processJob_saves_ok (env : JobEnv) (saveIdx : Nat) (job0 : Job)
    (hsave : ∀ n, env.saveResult n = none) :
    (processJob env saveIdx job0).threw = false ∧
    ∃ j', (processJob env saveIdx job0).stored = some j' ∧
      (j'.status = .completed ∨ j'.status = .failed) ∧
      (∀ m, env.download job0.fileName = .error m →
         j'.status = .failed ∧ j'.error = some m) := by
  simp only [processJob, hsave]
  cases hdl : env.download job0.fileName with
  | error m =>
    simp [hdl, processJobCatch, hsave]
  | ok ls =>
    cases hpf : processFileContent env.insertResult job0.fileId ls with
    | error m => simp [hdl, hpf, processJobCatch, hsave]
    | ok res => simp [hdl, hpf, hsave]
theorem pending_not_mem_of_count_zero (l : List Job) (h : pendingCount l = 0) :
    ∀ j ∈ l, j.status ≠ .pending := by
  intro j hj hp
  have : j ∈ l.filter (fun j => j.status = JobStatus.pending) :=
    List.mem_filter.mpr ⟨hj, by simp [hp]⟩
  rw [List.length_eq_zero.mp h] at this
  exact List.not_mem_nil j this

theorem status_terminal_ne_pending {j : Job}
    (h : j.status = .completed ∨ j.status = .failed) : j.status ≠ .pending := by
  rcases h with h | h <;> simp [h]

/-- With every save succeeding, a drain with more fuel than pending jobs runs
to the empty-queue exit: it never aborts, clears the guard flag, keeps the
store's shape, leaves untouched every job that was not pending, and replaces
every pending job by a terminal (`completed` or `failed`) snapshot — `failed`
with the lookup rejection's message when that job's download rejects. -/
theorem drainSteps_drains (env : JobEnv) (hsave : ∀ n, env.saveResult n = none) :
    ∀ (fuel : Nat) (qs : QueueState), pendingCount qs.jobs < fuel →
    (drainSteps env fuel qs).2 = false ∧
    (drainSteps env fuel qs).1.isProcessing = false ∧
    (drainSteps env fuel qs).1.jobs.length = qs.jobs.length ∧
    (∀ (i : Nat) (j : Job), qs.jobs.get? i = some j →
      (j.status ≠ .pending → (drainSteps env fuel qs).1.jobs.get? i = some j) ∧
      (j.status = .pending →
        ∃ j', (drainSteps env fuel qs).1.jobs.get? i = some j' ∧
          (j'.status = .completed ∨ j'.status = .failed) ∧
          (∀ m, env.download j.fileName = .error m →
             j'.status = .failed ∧ j'.error = some m))) := by
  intro fuel
  induction fuel with
  | zero => intro qs hcount; omega
  | succ fuel ih =>
    intro qs hcount
    simp only [drainSteps]
    cases hff : findFirstPending qs.jobs with
    | none =>
      refine ⟨rfl, rfl, rfl, ?_⟩
      intro i j hget
      have hnp := pending_not_mem_of_count_zero qs.jobs (findFirstPending_none _ hff)
        j (List.get?_mem hget)
      exact ⟨fun _ => hget, fun hp => absurd hp hnp⟩
    | some pair =>
      obtain ⟨i0, job⟩ := pair
      dsimp only
      have hspec := findFirstPending_spec _ _ _ hff
      obtain ⟨hthrew, j', hstored, hterm, hdlc⟩ := processJob_saves_ok env qs.nextSave job hsave
      have hlt0 : i0 < qs.jobs.length := get?_some_lt _ _ _ hspec.1
      have hnp' : j'.status ≠ .pending := status_terminal_ne_pending hterm
      have hdec : pendingCount (qs.jobs.set i0 j') + 1 = pendingCount qs.jobs :=
        pendingCount_set qs.jobs i0 job j' hspec.1 hspec.2 hnp'
      rw [hstored, hthrew]
      simp only [Bool.false_eq_true, if_false]
      have hIH := ih { qs with jobs := qs.jobs.set i0 j',
                               nextSave := (processJob env qs.nextSave job).nextSave }
        (by dsimp only; omega)
      refine ⟨hIH.1, hIH.2.1, ?_, ?_⟩
      · rw [hIH.2.2.1]
        simp
      · intro i j hget
        by_cases hi : i = i0
        · subst hi
          have hjj : j = job := by
            rw [hspec.1] at hget
            exact ((Option.some.injEq _ _).mp hget).symm
          subst hjj
          have hget' : (qs.jobs.set i j').get? i = some j' :=
            List.get?_set_eq_of_lt j' hlt0
          have := (hIH.2.2.2 i j' hget').1 hnp'
          exact ⟨fun hnp => absurd hspec.2 hnp, fun _ => ⟨j', this, hterm, hdlc⟩⟩
        · have hget' : (qs.jobs.set i0 j').get? i = qs.jobs.get? i :=
            List.get?_set_ne j' qs.jobs (fun he => hi he.symm)
          have := hIH.2.2.2 i j (by rw [hget']; exact hget)
          exact this
theorem pendingCount_zero_of_forall (l : List Job)
    (h : ∀ j ∈ l, j.status ≠ .pending) : pendingCount l = 0 := by
  simp only [pendingCount, List.length_eq_zero]
  rw [List.filter_eq_nil]
  intro a ha
  simp [h a ha]

/-- C4, counterexample.  A failure while running one job CAN abort the drain
loop: with two pending jobs, if the first job's stream lookup rejects and the
save inside `processJob`'s catch block also rejects, the rejection escapes
`processJob`, destroying the `while` loop — the drain aborts with the guard
flag still set, the first job stuck at `processing` in the store, and the
second job never claimed (still `pending`). -/
theorem C4_drain_abort_counterexample :
    (processQueue abortingDrainEnv twoPendingJobs).2 = true ∧
    (processQueue abortingDrainEnv twoPendingJobs).1.isProcessing = true ∧
    ((processQueue abortingDrainEnv twoPendingJobs).1.jobs.map (fun j => j.status)) =
      [.processing, .pending] := by
  refine ⟨by decide, by decide, by decide⟩

/-- C4, amended.  Provided every persistence save succeeds, a failure while
running one job (for example a source-stream lookup rejection on a newly
claimed job) never aborts the drain loop: the drain runs to the empty-queue
exit without rejecting, clears the guard flag, leaves no job pending, and
every job that was pending ends `completed` or `failed` — `failed`, with the
lookup rejection's message stored as its error, when its download rejects.
(When the save persisting a job's outcome rejects, the rejection escapes
`processJob` and the drain halts — see the counterexample.) -/
theorem C4_drain_loop_continues (env : JobEnv) (qs : QueueState)
    (hsave : ∀ n, env.saveResult n = none) (hidle : qs.isProcessing = false) :
    (processQueue env qs).2 = false ∧
    (processQueue env qs).1.isProcessing = false ∧
    pendingCount (processQueue env qs).1.jobs = 0 ∧
    (∀ (i : Nat) (j : Job), qs.jobs.get? i = some j → j.status = .pending →
      ∃ j', (processQueue env qs).1.jobs.get? i = some j' ∧
        (j'.status = .completed ∨ j'.status = .failed) ∧
        (∀ m, env.download j.fileName = .error m →
           j'.status = .failed ∧ j'.error = some m)) := by
  unfold processQueue
  rw [hidle]
  simp only [Bool.false_eq_true, if_false]
  have hD := drainSteps_drains env hsave (pendingCount qs.jobs + 1)
    { qs with isProcessing := true } (by dsimp only; omega)
  refine ⟨hD.1, hD.2.1, ?_, ?_⟩
  · apply pendingCount_zero_of_forall
    intro j hj
    obtain ⟨i, hi⟩ := List.mem_iff_get?.mp hj
    have hilt : i < qs.jobs.length := by
      have hl := get?_some_lt _ _ _ hi
      rw [hD.2.2.1] at hl
      exact hl
    cases hj0 : qs.jobs.get? i with
    | none =>
      have := List.get?_eq_none.mp hj0
      omega
    | some j0 =>
      have hper := hD.2.2.2 i j0 hj0
      by_cases hp0 : j0.status = .pending
      · obtain ⟨j', hj', hterm, _⟩ := hper.2 hp0
        have hjj : j = j' := by
          rw [hi] at hj'
          exact (Option.some.injEq _ _).mp hj' 
        rw [hjj]
        exact status_terminal_ne_pending hterm
      · have hkeep := hper.1 hp0
        have hjj : j = j0 := by
          rw [hi] at hkeep
          exact (Option.some.injEq _ _).mp hkeep 
        rw [hjj]
        exact hp0
  · intro i j hget hp
    exact (hD.2.2.2 i j hget).2 hp

/-- C4 witness: a two-job store in which the first job's stream lookup
rejects but all saves succeed — the drain completes, clears the flag and
leaves no job pending. -/
theorem C4_drain_loop_continues_witness :
    (processQueue lookupFailEnv twoPendingJobs).2 = false ∧
    (processQueue lookupFailEnv twoPendingJobs).1.isProcessing = false ∧
    pendingCount (processQueue lookupFailEnv twoPendingJobs).1.jobs = 0 :=
  ⟨(C4_drain_loop_continues lookupFailEnv twoPendingJobs (fun _ => rfl) rfl).1,
   (C4_drain_loop_continues lookupFailEnv twoPendingJobs (fun _ => rfl) rfl).2.1,
   (C4_drain_loop_continues lookupFailEnv twoPendingJobs (fun _ => rfl) rfl).2.2.1⟩
